import Mathlib

/-!
RBAC permission / policy translation.

A shallow embedding of `usecases/auth/authorization/rbac/types.go`: the two
translators `policy` (a structured permission to a `(resource, verb, domain)`
triple) and `permission` (a stored policy tuple back to a structured
permission), together with the table `builtInRoles`.

Go strings are embedded as Lean `String`s, that is, they are taken to hold
valid UTF-8.  A Go call can end in three ways, all of which are kept apart by
`Outcome`: with a value, with a returned `error`, or with a run-time panic.

The package `authorization`, whose constants, verb-word table and path builders the
file uses, is not among the sources.  Its path builders and table are modelled from the
specification; the value of its aggregate verb constant `CRUD` is a parameter of the
translators, and statements about concrete inputs take the string `CRUD` for it.
-/

namespace Rbac

/-! ## Outcomes of a Go call -/

/-- The three ways a Go call ends: a value, a returned `error`, a run-time panic. -/
inductive Outcome (α : Type) where
  | ok (value : α)
  | err (msg : String)
  | panic (msg : String)
deriving DecidableEq

/-- Sequencing of Go statements: the first failure ends the call. -/
def Outcome.bind {α β : Type} (x : Outcome α) (f : α → Outcome β) : Outcome β :=
  match x with
  | .ok v => f v
  | .err m => .err m
  | .panic m => .panic m

/-- Slice indexing `xs[i]`: panics when `i` is not below the length. -/
def index {α : Type} (xs : List α) (i : Nat) : Outcome α :=
  match xs.get? i with
  | some x => .ok x
  | none => .panic "index out of range"

/-- Pointer dereference `*p`: panics on `nil`. -/
def deref {α : Type} (p : Option α) : Outcome α :=
  match p with
  | some x => .ok x
  | none => .panic "nil pointer dereference"

/-! ## The string functions of the Go standard library that the file calls -/

/-- Character-level `strings.Cut`: the parts before and after the first `sep`. -/
def cutChars (sep : Char) : List Char → List Char × List Char × Bool
  | [] => ([], [], false)
  | c :: cs =>
    if c = sep then ([], cs, true)
    else
      match cutChars sep cs with
      | (before, after, found) => (c :: before, if found then after else [], found)

/-- The Go call `strings.Cut(s, sep)` for a one-character separator: `(before, after, found)`;
when `sep` does not occur the result is `(s, "", false)`. -/
def Cut (s : String) (sep : Char) : String × String × Bool :=
  match cutChars sep s.data with
  | (before, after, found) => (String.mk before, String.mk after, found)

/-- Character-level `strings.Split` for a one-character separator. -/
def splitChars (sep : Char) : List Char → List (List Char)
  | [] => [[]]
  | c :: cs =>
    if c = sep then [] :: splitChars sep cs
    else
      match splitChars sep cs with
      | seg :: segs => (c :: seg) :: segs
      | [] => [[c]]

/-- The Go call `strings.Split(s, sep)` for a one-character separator; a string without
`sep` (the empty one included) gives the one-element sequence holding it. -/
def Split (s : String) (sep : Char) : List String :=
  (splitChars sep s.data).map String.mk

/-- Character-level `strings.ReplaceAll(s, "_*", "")`: every non-overlapping occurrence
of `_*`, scanning from the left, is removed. -/
def removeUnderscoreStar : List Char → List Char
  | [] => []
  | [c] => [c]
  | c :: d :: rest =>
    if c = '_' ∧ d = '*' then removeUnderscoreStar rest
    else c :: removeUnderscoreStar (d :: rest)

/-- The Go call `strings.ReplaceAll(s, "_*", "")`. -/
def ReplaceAllUnderscoreStar (s : String) : String :=
  String.mk (removeUnderscoreStar s.data)

/-- The Go expression `strings.ToUpper(action[:1])`.  `action[:1]` is the first *byte* of
`action` and panics on the empty string.  For an ASCII first character the byte is that
character and `ToUpper` maps `a`..`z` to `A`..`Z`; for any other first character the byte
is the lead byte of a multi-byte encoding, not valid UTF-8 by itself, which `ToUpper`
turns into the replacement character U+FFFD. -/
def upperFirstByte (action : String) : Outcome String :=
  match action.data with
  | [] => .panic "slice bounds out of range [:1] with length 0"
  | c :: _ =>
    if c.val < 128 then .ok (String.singleton c.toUpper)
    else .ok (String.singleton (Char.ofNat 0xFFFD))

/-- The Go call `fmt.Sprintf("%s_%s", a, b)`. -/
def sprintfUnderscore (a b : String) : String := a ++ "_" ++ b

/-! ## Constants of the package -/

def rolesD : String := "roles"
def cluster : String := "cluster"
def collections : String := "collections"
def tenants : String := "tenants"
def objectsCollection : String := "objects_collection"
def objectsTenants : String := "objects_tenants"

/-- The map `builtInRoles`, as its lookup.  The verb constants `authorization.READ`,
`authorization.CRU` and `authorization.CRUD` belong to a package that is not among the
sources, so their values are parameters. -/
def builtInRoles (READ CRU CRUD : String) (name : String) : Option String :=
  if name = "viewer" then some READ
  else if name = "editor" then some CRU
  else if name = "admin" then some CRUD
  else none

/-! ## Package `authorization`: path builders and the verb-word table -/

/-- Modelled from the spec: `authorization.Cluster` is not among the sources; the
specification gives `Cluster()` as the path `cluster`. -/
def Cluster : String := "cluster"

/-- Modelled from the spec: `authorization.Roles` is not among the sources; the
specification gives `Roles()` as a sequence with the element `roles/*`. -/
def Roles : List String := ["roles/*"]

/-- Modelled from the spec: `authorization.Collections` is not among the sources; the
specification gives `Collections(name)` as `collections/<name>`, and the callers read
element 0 of the result. -/
def Collections (name : String) : List String := ["collections/" ++ name]

/-- Modelled from the spec: `authorization.Shards` is not among the sources; the
specification gives `Shards(collection, tenant)` as `collections/<collection>/shards/<tenant>`,
and the callers read element 0 of the result. -/
def Shards (collection tenant : String) : List String :=
  ["collections/" ++ collection ++ "/shards/" ++ tenant]

/-- Modelled from the spec: `authorization.Objects` is not among the sources; the
specification gives `Objects(collection, tenant, objectID)` as
`collections/<collection>/shards/<tenant>/objects/<objectID>`. -/
def Objects (collection tenant objectID : String) : String :=
  "collections/" ++ collection ++ "/shards/" ++ tenant ++ "/objects/" ++ objectID

/-- Modelled from the spec: the reverse verb-word table `authorization.Actions` is not
among the sources; the specification describes it as sending each verb to its English
word (Read to `read`, the aggregate CRUD verb to `manage`), the verbs being Create,
Read, Update, Delete and the aggregate.  The value of the aggregate constant
`authorization.CRUD` is a parameter. -/
def Actions (CRUD : String) (verb : String) : Option String :=
  if verb = CRUD then some "manage"
  else if verb = "C" then some "create"
  else if verb = "R" then some "read"
  else if verb = "U" then some "update"
  else if verb = "D" then some "delete"
  else none

/-- A Go map lookup `m[k]` of a `map[string]string`: the empty string for a missing key. -/
def lookupOrZero (m : String → Option String) (k : String) : String :=
  (m k).getD ""

/-! ## The permission record and the two translators -/

/-- The record `models.Permission`: every field is a `*string`, `none` standing for `nil`. -/
structure Permission where
  Action : Option String
  Collection : Option String
  Tenant : Option String
  Object : Option String
  Role : Option String
deriving DecidableEq

/-- The `switch domain` of `policy`: the resource path of a permission in a domain.  An
unlisted domain leaves `resource` at its zero value, the empty string. -/
def policyResource (permission : Permission) (domain : String) : Outcome String :=
  if domain = rolesD then index Roles 0
  else if domain = cluster then .ok Cluster
  else if domain = collections then
    match permission.Collection with
    | none => index (Collections "*") 0
    | some c => index (Collections c) 0
  else if domain = tenants then
    match permission.Collection, permission.Tenant with
    | some c, some t => index (Shards c t) 0
    | _, _ => index (Shards "*" "*") 0
  else if domain = objectsCollection ∨ domain = objectsTenants then
    match permission.Collection, permission.Tenant, permission.Object with
    | some c, some t, some o => .ok (Objects c t o)
    | _, _, _ => .ok (Objects "*" "*" "*")
  else .ok ""

/-- The function `policy`: `(resource, verb, domain)` of a permission.  The pointer
argument is taken to be non-nil. -/
def policy (CRUD : String) (permission : Permission) : Outcome (String × String × String) :=
  (deref permission.Action).bind fun a =>
    match Cut a '_' with
    | (action, domain, found) =>
      if found = false then .err "invalid action"
      else
        (upperFirstByte action).bind fun upper =>
          let verb := if upper = "M" then CRUD else upper
          (policyResource permission domain).bind fun resource =>
            .ok (resource, verb, domain)

/-- The function `permission`: the structured permission of a stored policy tuple. -/
def permission (CRUD : String) (policy : List String) : Outcome Permission :=
  (index policy 3).bind fun domain =>
    (index policy 2).bind fun verb =>
      let action := ReplaceAllUnderscoreStar (sprintfUnderscore (lookupOrZero (Actions CRUD) verb) domain)
      (index policy 1).bind fun path =>
        let splits := Split path '/'
        let all := "*"
        let p : Permission := ⟨some action, none, none, none, none⟩
        if domain = collections then
          (index splits 1).bind fun c => .ok { p with Collection := some c }
        else if domain = tenants then
          (index splits 3).bind fun t =>
            (index splits 1).bind fun c => .ok { p with Tenant := some t, Collection := some c }
        else if domain = objectsTenants ∨ domain = objectsCollection then
          (index splits 1).bind fun c =>
            (index splits 3).bind fun t =>
              (index splits 5).bind fun o =>
                .ok { p with Collection := some c, Tenant := some t, Object := some o }
        else if domain = rolesD then
          (index splits 1).bind fun r => .ok { p with Role := some r }
        else if domain = "*" then
          .ok { p with Collection := some all, Tenant := some all, Object := some all, Role := some all }
        else .ok p

/-- Element 0 of the result of a path builder. -/
def elem0 (paths : List String) : String := paths.headD ""

/-- The verb words, each with the verb that `policy` derives from it. -/
def wordVerbs (CRUD : String) : List (String × String) :=
  [("create", "C"), ("read", "R"), ("update", "U"), ("delete", "D"), ("manage", CRUD)]

/-- The domains whose decoding reads path segments. -/
def pathDomains : List String :=
  ["collections", "tenants", "objects_tenants", "objects_collection", "roles"]

/-- The number of path segments that `permission` reads in a domain: the highest index
of its `switch` case, plus one; no segment for a domain without a case that indexes. -/
def segmentsRead (domain : String) : Nat :=
  if domain = collections then 2
  else if domain = tenants then 4
  else if domain = objectsTenants ∨ domain = objectsCollection then 6
  else if domain = rolesD then 2
  else 0

/-- The reconstruction of an Action as the specification words it: the suffix `_*` is
stripped when the string ends in it, and the string is left as it is otherwise. -/
def stripTrailingUnderscoreStar (s : String) : String :=
  if "_*".data.isSuffixOf s.data then String.mk (s.data.take (s.data.length - 2)) else s

/-! ## Facts about the string functions -/

theorem Outcome.ok_bind {α β : Type} (v : α) (f : α → Outcome β) :
    (Outcome.ok v).bind f = f v := rfl

theorem cutChars_append (sep : Char) (w d : List Char) (hw : sep ∉ w) :
    cutChars sep (w ++ sep :: d) = (w, d, true) := by
  induction w with
  | nil => simp [cutChars]
  | cons c cs ih =>
    have hc : c ≠ sep := fun h => hw (by simp [h])
    have hcs : sep ∉ cs := fun h => hw (by simp [h])
    simp [cutChars, hc, ih hcs]

theorem cutChars_not_mem (sep : Char) (s : List Char) (hs : sep ∉ s) :
    cutChars sep s = (s, [], false) := by
  induction s with
  | nil => simp [cutChars]
  | cons c cs ih =>
    have hc : c ≠ sep := fun h => hs (by simp [h])
    have hcs : sep ∉ cs := fun h => hs (by simp [h])
    simp [cutChars, hc, ih hcs]

theorem cutChars_mem (sep : Char) (s : List Char) (hs : sep ∈ s) :
    (cutChars sep s).2.2 = true := by
  induction s with
  | nil => simp at hs
  | cons c cs ih =>
    by_cases hc : c = sep
    · simp [cutChars, hc]
    · have hcs : sep ∈ cs := by
        rcases List.mem_cons.mp hs with h | h
        · exact absurd h.symm hc
        · exact h
      simp [cutChars, hc, ih hcs]

theorem Cut_append (w d : String) (hw : '_' ∉ w.data) :
    Cut (w ++ "_" ++ d) '_' = (w, d, true) := by
  have h : (w ++ "_" ++ d).data = w.data ++ '_' :: d.data := by
    simp [String.data_append]
  simp [Cut, h, cutChars_append '_' w.data d.data hw]

theorem splitChars_not_mem (sep : Char) (a : List Char) (ha : sep ∉ a) :
    splitChars sep a = [a] := by
  induction a with
  | nil => simp [splitChars]
  | cons c cs ih =>
    have hc : c ≠ sep := fun h => ha (by simp [h])
    have hcs : sep ∉ cs := fun h => ha (by simp [h])
    simp [splitChars, hc, ih hcs]

theorem splitChars_append (sep : Char) (a rest : List Char) (ha : sep ∉ a) :
    splitChars sep (a ++ sep :: rest) = a :: splitChars sep rest := by
  induction a with
  | nil => simp [splitChars]
  | cons c cs ih =>
    have hc : c ≠ sep := fun h => ha (by simp [h])
    have hcs : sep ∉ cs := fun h => ha (by simp [h])
    simp [splitChars, hc, ih hcs]

theorem Split_collections (c : String) (hc : '/' ∉ c.data) :
    Split ("collections/" ++ c) '/' = ["collections", c] := by
  have h : ("collections/" ++ c).data = "collections".data ++ '/' :: c.data := by
    simp [String.data_append]
  have h1 : '/' ∉ "collections".data := by decide
  unfold Split
  rw [h, splitChars_append '/' _ _ h1, splitChars_not_mem '/' _ hc]
  rfl

theorem Split_shards (c t : String) (hc : '/' ∉ c.data) (ht : '/' ∉ t.data) :
    Split ("collections/" ++ c ++ "/shards/" ++ t) '/' = ["collections", c, "shards", t] := by
  have h : ("collections/" ++ c ++ "/shards/" ++ t).data
      = "collections".data ++ '/' :: (c.data ++ '/' :: ("shards".data ++ '/' :: t.data)) := by
    simp [String.data_append]
  have h1 : '/' ∉ "collections".data := by decide
  have h2 : '/' ∉ "shards".data := by decide
  unfold Split
  rw [h, splitChars_append '/' _ _ h1, splitChars_append '/' _ _ hc,
    splitChars_append '/' _ _ h2, splitChars_not_mem '/' _ ht]
  rfl

theorem Split_objects (c t o : String) (hc : '/' ∉ c.data) (ht : '/' ∉ t.data)
    (ho : '/' ∉ o.data) :
    Split ("collections/" ++ c ++ "/shards/" ++ t ++ "/objects/" ++ o) '/'
      = ["collections", c, "shards", t, "objects", o] := by
  have h : ("collections/" ++ c ++ "/shards/" ++ t ++ "/objects/" ++ o).data
      = "collections".data ++ '/' :: (c.data ++ '/' :: ("shards".data ++ '/' ::
          (t.data ++ '/' :: ("objects".data ++ '/' :: o.data)))) := by
    simp [String.data_append]
  have h1 : '/' ∉ "collections".data := by decide
  have h2 : '/' ∉ "shards".data := by decide
  have h3 : '/' ∉ "objects".data := by decide
  unfold Split
  rw [h, splitChars_append '/' _ _ h1, splitChars_append '/' _ _ hc,
    splitChars_append '/' _ _ h2, splitChars_append '/' _ _ ht,
    splitChars_append '/' _ _ h3, splitChars_not_mem '/' _ ho]
  rfl

/-! ## Facts about the two translators -/

theorem policy_of_word (CRUD w d u : String) (col ten obj role : Option String)
    (hw : '_' ∉ w.data) (hu : upperFirstByte w = .ok u) :
    policy CRUD ⟨some (w ++ "_" ++ d), col, ten, obj, role⟩
      = (policyResource ⟨some (w ++ "_" ++ d), col, ten, obj, role⟩ d).bind fun resource =>
          .ok (resource, if u = "M" then CRUD else u, d) := by
  simp [policy, deref, Outcome.bind, Cut_append w d hw, hu]

theorem permission_tuple (CRUD s path v d : String) :
    permission CRUD [s, path, v, d]
      = (let action := ReplaceAllUnderscoreStar (sprintfUnderscore (lookupOrZero (Actions CRUD) v) d)
         let splits := Split path '/'
         let p : Permission := ⟨some action, none, none, none, none⟩
         if d = collections then
           (index splits 1).bind fun c => .ok { p with Collection := some c }
         else if d = tenants then
           (index splits 3).bind fun t =>
             (index splits 1).bind fun c => .ok { p with Tenant := some t, Collection := some c }
         else if d = objectsTenants ∨ d = objectsCollection then
           (index splits 1).bind fun c =>
             (index splits 3).bind fun t =>
               (index splits 5).bind fun o =>
                 .ok { p with Collection := some c, Tenant := some t, Object := some o }
         else if d = rolesD then
           (index splits 1).bind fun r => .ok { p with Role := some r }
         else if d = "*" then
           .ok { p with Collection := some "*", Tenant := some "*", Object := some "*",
                        Role := some "*" }
         else .ok p) := by
  simp [permission, index, Outcome.bind]

theorem word_facts (CRUD w v : String) (h : (w, v) ∈ wordVerbs CRUD) :
    '_' ∉ w.data ∧ '/' ∉ w.data ∧
    (∃ u, upperFirstByte w = .ok u ∧ (if u = "M" then CRUD else u) = v) ∧
    (∀ d ∈ pathDomains, ReplaceAllUnderscoreStar (sprintfUnderscore w d) = w ++ "_" ++ d) := by
  simp only [wordVerbs, List.mem_cons, List.mem_singleton, Prod.mk.injEq, List.not_mem_nil,
    or_false] at h
  rcases h with ⟨rfl, rfl⟩ | ⟨rfl, rfl⟩ | ⟨rfl, rfl⟩ | ⟨rfl, rfl⟩ | ⟨rfl, rfl⟩
  all_goals
    refine ⟨by decide, by decide, ⟨_, rfl, ?_⟩, by decide⟩
  all_goals rfl

theorem Actions_of_verb (CRUD v : String) (hv : v ∈ ["C", "R", "U", "D", CRUD]) :
    ∃ w, lookupOrZero (Actions CRUD) v = w ∧ (w, v) ∈ wordVerbs CRUD := by
  by_cases h : v = CRUD
  · subst h
    exact ⟨"manage", by simp [lookupOrZero, Actions], by simp [wordVerbs]⟩
  · simp only [List.mem_cons, List.mem_singleton, List.not_mem_nil, or_false, h] at hv
    rcases hv with rfl | rfl | rfl | rfl
    · exact ⟨"create", by simp [lookupOrZero, Actions, h], by simp [wordVerbs]⟩
    · exact ⟨"read", by simp [lookupOrZero, Actions, h], by simp [wordVerbs]⟩
    · exact ⟨"update", by simp [lookupOrZero, Actions, h], by simp [wordVerbs]⟩
    · exact ⟨"delete", by simp [lookupOrZero, Actions, h], by simp [wordVerbs]⟩

theorem Actions_of_word (CRUD w v : String) (hK : CRUD ∉ ["C", "R", "U", "D"])
    (h : (w, v) ∈ wordVerbs CRUD) : lookupOrZero (Actions CRUD) v = w := by
  simp only [List.mem_cons, List.mem_singleton, List.not_mem_nil, or_false, not_or] at hK
  obtain ⟨h1, h2, h3, h4⟩ := hK
  simp only [wordVerbs, List.mem_cons, List.mem_singleton, Prod.mk.injEq, List.not_mem_nil,
    or_false] at h
  rcases h with ⟨rfl, rfl⟩ | ⟨rfl, rfl⟩ | ⟨rfl, rfl⟩ | ⟨rfl, rfl⟩ | ⟨rfl, rfl⟩
  · simp [lookupOrZero, Actions, Ne.symm h1]
  · simp [lookupOrZero, Actions, Ne.symm h2]
  · simp [lookupOrZero, Actions, Ne.symm h3]
  · simp [lookupOrZero, Actions, Ne.symm h4]
  · simp [lookupOrZero, Actions]

/-! ## Round trips: decoding a tuple and encoding the result -/

/-- C1 (as stated, refuted): the collection name `a/b` is not `*`, yet decoding the tuple
`[p, Collections(a/b), R, collections]` gives a permission for the collection `a`, and
encoding that permission gives the path `collections/a`, not `collections/a/b`. -/
theorem slash_breaks_collections_decoding :
    elem0 (Collections "a/b") = "collections/a/b" ∧
    permission "CRUD" ["p", elem0 (Collections "a/b"), "R", "collections"]
      = .ok ⟨some "read_collections", some "a", none, none, none⟩ ∧
    policy "CRUD" ⟨some "read_collections", some "a", none, none, none⟩
      = .ok ("collections/a", "R", "collections") ∧
    policy "CRUD" ⟨some "read_collections", some "a", none, none, none⟩
      ≠ .ok (elem0 (Collections "a/b"), "R", "collections") := by
  decide

/-- C1 (amended): for every collection name `c` without a `/` (the wildcard `*` included),
every verb `v` among `C`, `R`, `U`, `D` and the aggregate CRUD verb, and every subject
placeholder `s`, decoding `[s, Collections(c), v, collections]` with `permission`
succeeds, and encoding the resulting permission with `policy` succeeds and returns
exactly `(Collections(c), v, collections)`. -/
theorem collections_round_trip (CRUD s c v : String) (hc : '/' ∉ c.data)
    (hv : v ∈ ["C", "R", "U", "D", CRUD]) :
    ∃ p, permission CRUD [s, elem0 (Collections c), v, "collections"] = .ok p ∧
      policy CRUD p = .ok (elem0 (Collections c), v, "collections") := by
  obtain ⟨w, hw, hmem⟩ := Actions_of_verb CRUD v hv
  obtain ⟨hus, _, ⟨u, hu, huv⟩, hrep⟩ := word_facts CRUD w v hmem
  have hact := hrep "collections" (by decide)
  refine ⟨⟨some (w ++ "_" ++ "collections"), some c, none, none, none⟩, ?_, ?_⟩
  · rw [permission_tuple]
    simp [hw, hact, elem0, Collections, Split_collections c hc, collections, index,
      Outcome.bind]
  · rw [policy_of_word CRUD w "collections" u _ _ _ _ hus hu, huv]
    simp [policyResource, rolesD, cluster, collections, Collections, index, elem0,
      Outcome.bind]

/-- C1 (amended), at the collection `Article` and the verb `R`. -/
theorem collections_round_trip_witness :
    ∃ p, permission "CRUD" ["p", elem0 (Collections "Article"), "R", "collections"] = .ok p ∧
      policy "CRUD" p = .ok (elem0 (Collections "Article"), "R", "collections") :=
  collections_round_trip "CRUD" "p" "Article" "R" (by decide) (by decide)

/-- C2 (as stated, refuted): with the collection `a/b` and the tenant `t1`, decoding
`[p, Shards(a/b, t1), R, tenants]` reads the collection `a` and the tenant `shards`, and
encoding that permission gives `collections/a/shards/shards`, not the path of the tuple. -/
theorem slash_breaks_tenants_decoding :
    elem0 (Shards "a/b" "t1") = "collections/a/b/shards/t1" ∧
    permission "CRUD" ["p", elem0 (Shards "a/b" "t1"), "R", "tenants"]
      = .ok ⟨some "read_tenants", some "a", some "shards", none, none⟩ ∧
    policy "CRUD" ⟨some "read_tenants", some "a", some "shards", none, none⟩
      = .ok ("collections/a/shards/shards", "R", "tenants") ∧
    policy "CRUD" ⟨some "read_tenants", some "a", some "shards", none, none⟩
      ≠ .ok (elem0 (Shards "a/b" "t1"), "R", "tenants") := by
  decide

/-- C2 (amended): for every collection `c`, tenant `t` and object id `o` without a `/`,
every verb `v` among `C`, `R`, `U`, `D` and the aggregate CRUD verb, and every subject
placeholder `s`: decoding `[s, Shards(c, t), v, tenants]` succeeds and encoding the result
returns `(Shards(c, t), v, tenants)`; and for `d` among `objects_tenants` and
`objects_collection`, decoding `[s, Objects(c, t, o), v, d]` succeeds and encoding the
result returns `(Objects(c, t, o), v, d)`. -/
theorem tenants_objects_round_trip (CRUD s c t o v d : String) (hc : '/' ∉ c.data)
    (ht : '/' ∉ t.data) (ho : '/' ∉ o.data) (hv : v ∈ ["C", "R", "U", "D", CRUD])
    (hd : d ∈ ["objects_tenants", "objects_collection"]) :
    (∃ p, permission CRUD [s, elem0 (Shards c t), v, "tenants"] = .ok p ∧
      policy CRUD p = .ok (elem0 (Shards c t), v, "tenants")) ∧
    (∃ p, permission CRUD [s, Objects c t o, v, d] = .ok p ∧
      policy CRUD p = .ok (Objects c t o, v, d)) := by
  obtain ⟨w, hw, hmem⟩ := Actions_of_verb CRUD v hv
  obtain ⟨hus, _, ⟨u, hu, huv⟩, hrep⟩ := word_facts CRUD w v hmem
  constructor
  · have hact := hrep "tenants" (by decide)
    refine ⟨⟨some (w ++ "_" ++ "tenants"), some c, some t, none, none⟩, ?_, ?_⟩
    · rw [permission_tuple]
      simp [hw, hact, elem0, Shards, Split_shards c t hc ht, collections, tenants, index,
        Outcome.bind]
    · rw [policy_of_word CRUD w "tenants" u _ _ _ _ hus hu, huv]
      simp [policyResource, rolesD, cluster, collections, tenants, Shards, index, elem0,
        Outcome.bind]
  · have hact := hrep d (by
      simp only [List.mem_cons, List.mem_singleton, List.not_mem_nil, or_false] at hd
      rcases hd with rfl | rfl <;> decide)
    refine ⟨⟨some (w ++ "_" ++ d), some c, some t, some o, none⟩, ?_, ?_⟩
    · rw [permission_tuple]
      simp only [List.mem_cons, List.mem_singleton, List.not_mem_nil, or_false] at hd
      rcases hd with rfl | rfl <;>
        simp [hw, hact, Objects, Split_objects c t o hc ht ho, collections, tenants,
          objectsTenants, objectsCollection, index, Outcome.bind]
    · rw [policy_of_word CRUD w d u _ _ _ _ hus hu, huv]
      simp only [List.mem_cons, List.mem_singleton, List.not_mem_nil, or_false] at hd
      rcases hd with rfl | rfl <;>
        simp [policyResource, rolesD, cluster, collections, tenants, objectsTenants,
          objectsCollection, Outcome.bind]

/-- C2 (amended), at the collection `Article`, the tenant `tenant1`, the object
`11111111-1111-1111-1111-111111111111`, the verb `D` and the domain `objects_tenants`. -/
theorem tenants_objects_round_trip_witness :
    (∃ p, permission "CRUD" ["p", elem0 (Shards "Article" "tenant1"), "D", "tenants"] = .ok p ∧
      policy "CRUD" p = .ok (elem0 (Shards "Article" "tenant1"), "D", "tenants")) ∧
    (∃ p, permission "CRUD" ["p",
        Objects "Article" "tenant1" "11111111-1111-1111-1111-111111111111", "D",
        "objects_tenants"] = .ok p ∧
      policy "CRUD" p = .ok (Objects "Article" "tenant1" "11111111-1111-1111-1111-111111111111",
        "D", "objects_tenants")) :=
  tenants_objects_round_trip "CRUD" "p" "Article" "tenant1"
    "11111111-1111-1111-1111-111111111111" "D" "objects_tenants"
    (by decide) (by decide) (by decide) (by decide) (by decide)

/-! ## Encoding a permission and decoding the result -/

/-- C3: for every Collection `c`, Tenant `t` and Object `o` without a `/`, every verb word
`w` among create, read, update, delete, manage (with its verb `v`: `C`, `R`, `U`, `D`, the
aggregate CRUD verb) and every domain `d` among `objects_tenants` and
`objects_collection`: `policy` applied to the permission with Action `w_d`, Collection `c`,
Tenant `t`, Object `o` and Role unset returns the path `collections/c/shards/t/objects/o`,
the verb `v` and the domain `d`; and `permission` applied to the tuple of any subject `s`,
that path, that verb and `d` returns the same permission: the same Action, Collection,
Tenant and Object, and Role unset.  The aggregate constant is taken to differ from the four
one-letter verbs, as the keys of the verb-word table must. -/
theorem objects_encode_decode (CRUD s c t o w v d : String)
    (hK : CRUD ∉ ["C", "R", "U", "D"])
    (hc : '/' ∉ c.data) (ht : '/' ∉ t.data) (ho : '/' ∉ o.data)
    (hwv : (w, v) ∈ wordVerbs CRUD)
    (hd : d ∈ ["objects_tenants", "objects_collection"]) :
    policy CRUD ⟨some (w ++ "_" ++ d), some c, some t, some o, none⟩
      = .ok ("collections/" ++ c ++ "/shards/" ++ t ++ "/objects/" ++ o, v, d) ∧
    permission CRUD [s, "collections/" ++ c ++ "/shards/" ++ t ++ "/objects/" ++ o, v, d]
      = .ok ⟨some (w ++ "_" ++ d), some c, some t, some o, none⟩ := by
  obtain ⟨hus, _, ⟨u, hu, huv⟩, hrep⟩ := word_facts CRUD w v hwv
  have hw := Actions_of_word CRUD w v hK hwv
  have hact := hrep d (by
    simp only [List.mem_cons, List.mem_singleton, List.not_mem_nil, or_false] at hd
    rcases hd with rfl | rfl <;> decide)
  simp only [List.mem_cons, List.mem_singleton, List.not_mem_nil, or_false] at hd
  constructor
  · rw [policy_of_word CRUD w d u _ _ _ _ hus hu, huv]
    rcases hd with rfl | rfl <;>
      simp [policyResource, rolesD, cluster, collections, tenants, objectsTenants,
        objectsCollection, Objects, Outcome.bind]
  · rw [permission_tuple]
    rcases hd with rfl | rfl <;>
      simp [hw, hact, Split_objects c t o hc ht ho, collections, tenants,
        objectsTenants, objectsCollection, index, Outcome.bind]

/-- C3, at `delete_objects_tenants` / `Article` / `tenant1` /
`11111111-1111-1111-1111-111111111111`: the verb is `D`. -/
theorem objects_encode_decode_witness :
    policy "CRUD" ⟨some ("delete" ++ "_" ++ "objects_tenants"), some "Article", some "tenant1",
        some "11111111-1111-1111-1111-111111111111", none⟩
      = .ok ("collections/" ++ "Article" ++ "/shards/" ++ "tenant1" ++ "/objects/"
          ++ "11111111-1111-1111-1111-111111111111", "D", "objects_tenants") ∧
    permission "CRUD" ["p", "collections/" ++ "Article" ++ "/shards/" ++ "tenant1" ++ "/objects/"
        ++ "11111111-1111-1111-1111-111111111111", "D", "objects_tenants"]
      = .ok ⟨some ("delete" ++ "_" ++ "objects_tenants"), some "Article", some "tenant1",
          some "11111111-1111-1111-1111-111111111111", none⟩ :=
  objects_encode_decode "CRUD" "p" "Article" "tenant1" "11111111-1111-1111-1111-111111111111"
    "delete" "D" "objects_tenants" (by decide) (by decide) (by decide) (by decide) (by decide)
    (by decide)

/-! ## Paths with too few segments -/

theorem index_short {α : Type} (xs : List α) (i : Nat) (h : xs.length ≤ i) :
    index xs i = .panic "index out of range" := by
  unfold index
  rw [List.get?_eq_none.mpr h]

theorem index_ok_or_panic {α : Type} (xs : List α) (i : Nat) :
    (∃ x, index xs i = .ok x) ∨ index xs i = .panic "index out of range" := by
  unfold index
  cases xs.get? i with
  | none => exact Or.inr rfl
  | some x => exact Or.inl ⟨x, rfl⟩

/-- The segments each domain reads: `permission` panics on every tuple whose path has fewer
segments than that, whatever the subject and the verb. -/
theorem permission_panics_on_short_path (CRUD s path v d : String) (n : Nat)
    (hd : (d, n) ∈ [("collections", 2), ("roles", 2), ("tenants", 4),
      ("objects_tenants", 6), ("objects_collection", 6)])
    (hlen : (Split path '/').length < n) :
    permission CRUD [s, path, v, d] = .panic "index out of range" := by
  rw [permission_tuple]
  simp only [List.mem_cons, List.mem_singleton, Prod.mk.injEq, List.not_mem_nil,
    or_false] at hd
  rcases hd with ⟨rfl, rfl⟩ | ⟨rfl, rfl⟩ | ⟨rfl, rfl⟩ | ⟨rfl, rfl⟩ | ⟨rfl, rfl⟩
  · simp [collections, index_short _ 1 (by omega : (Split path '/').length ≤ 1), Outcome.bind]
  · simp [collections, tenants, objectsTenants, objectsCollection, rolesD,
      index_short _ 1 (by omega : (Split path '/').length ≤ 1), Outcome.bind]
  · simp [collections, tenants, index_short _ 3 (by omega : (Split path '/').length ≤ 3),
      Outcome.bind]
  · have h5 := index_short _ 5 (by omega : (Split path '/').length ≤ 5)
    rcases index_ok_or_panic (Split path '/') 1 with ⟨x1, h1⟩ | h1 <;>
      rcases index_ok_or_panic (Split path '/') 3 with ⟨x3, h3⟩ | h3 <;>
        simp [collections, tenants, objectsTenants, objectsCollection, h1, h3, h5,
          Outcome.bind]
  · have h5 := index_short _ 5 (by omega : (Split path '/').length ≤ 5)
    rcases index_ok_or_panic (Split path '/') 1 with ⟨x1, h1⟩ | h1 <;>
      rcases index_ok_or_panic (Split path '/') 3 with ⟨x3, h3⟩ | h3 <;>
        simp [collections, tenants, objectsTenants, objectsCollection, h1, h3, h5,
          Outcome.bind]

/-- C4 (the code at failing inputs): on a tuple whose path has fewer segments than its
domain reads, `permission` does not report a decode error: it indexes past the end of the
segment sequence and panics.  One tuple for each of the five domains. -/
theorem permission_short_path_panics :
    permission "CRUD" ["p", "collections", "R", "collections"] = .panic "index out of range" ∧
    permission "CRUD" ["p", "roles", "R", "roles"] = .panic "index out of range" ∧
    permission "CRUD" ["p", "collections/Article/shards", "R", "tenants"]
      = .panic "index out of range" ∧
    permission "CRUD" ["p", "collections/Article/shards/tenant1/objects", "R", "objects_tenants"]
      = .panic "index out of range" ∧
    permission "CRUD" ["p", "collections/Article/shards/tenant1", "R", "objects_collection"]
      = .panic "index out of range" := by
  decide

theorem policyResource_ok (p : Permission) (d : String) : ∃ r, policyResource p d = .ok r := by
  obtain ⟨a, col, ten, obj, role⟩ := p
  unfold policyResource
  split_ifs
  · exact ⟨_, rfl⟩
  · exact ⟨_, rfl⟩
  · cases col <;> exact ⟨_, rfl⟩
  · cases col <;> cases ten <;> exact ⟨_, rfl⟩
  · cases col <;> cases ten <;> cases obj <;> exact ⟨_, rfl⟩
  · exact ⟨_, rfl⟩

theorem upperFirstByte_ok (w : String) (hw : w ≠ "") : ∃ u, upperFirstByte w = .ok u := by
  obtain ⟨l⟩ := w
  cases l with
  | nil => exact absurd rfl hw
  | cons c cs =>
    by_cases h : c.val < 128
    · exact ⟨String.singleton c.toUpper, by simp [upperFirstByte, h]⟩
    · exact ⟨String.singleton (Char.ofNat 0xFFFD), by simp [upperFirstByte, h]⟩

/-! ## Malformed actions -/

/-- An Action without `_` makes `policy` return the error `invalid action`. -/
theorem policy_err_of_no_separator (CRUD a : String) (col ten obj role : Option String)
    (ha : '_' ∉ a.data) :
    policy CRUD ⟨some a, col, ten, obj, role⟩ = .err "invalid action" := by
  simp [policy, deref, Outcome.bind, Cut, cutChars_not_mem '_' a.data ha]

/-- An Action that starts with `_`, so that its verb word is empty, makes `policy` panic. -/
theorem policy_panics_on_empty_verb_word (CRUD d : String) (col ten obj role : Option String) :
    policy CRUD ⟨some ("_" ++ d), col, ten, obj, role⟩
      = .panic "slice bounds out of range [:1] with length 0" := by
  have h : Cut ("_" ++ d) '_' = ("", d, true) := by
    simpa using Cut_append "" d (by simp)
  simp [policy, deref, Outcome.bind, h, upperFirstByte]

/-- An Action that has the separator after a non-empty verb word makes `policy` return a
triple. -/
theorem policy_ok_of_separator (CRUD a : String) (c : Char) (rest : List Char)
    (col ten obj role : Option String)
    (hdata : a.data = c :: rest) (hc : c ≠ '_') (hrest : '_' ∈ rest) :
    ∃ triple, policy CRUD ⟨some a, col, ten, obj, role⟩ = .ok triple := by
  have hfound := cutChars_mem '_' rest hrest
  have hcut : Cut a '_' = (String.mk (c :: (cutChars '_' rest).1),
      String.mk (cutChars '_' rest).2.1, true) := by
    simp [Cut, hdata, cutChars, hc, hfound]
  obtain ⟨u, hu⟩ := upperFirstByte_ok (String.mk (c :: (cutChars '_' rest).1))
    (by intro h; simpa using congrArg String.data h)
  obtain ⟨r, hr⟩ := policyResource_ok ⟨some a, col, ten, obj, role⟩
    (String.mk (cutChars '_' rest).2.1)
  exact ⟨(r, (if u = "M" then CRUD else u), String.mk (cutChars '_' rest).2.1),
    by simp [policy, deref, Outcome.bind, hcut, hu, hr]⟩

/-- C5 (the code at the failing input): on the Action `_collections`, which has the
separator and an empty verb word, `policy` returns neither a triple nor an error: the
slice `action[:1]` of the empty verb word panics. An Action without the separator
(`readcollections`) does give the error, and an unrecognised domain (`read_foo`) gives a
triple with the empty path. -/
theorem policy_empty_verb_word_panics :
    policy "CRUD" ⟨some "_collections", none, none, none, none⟩
      = .panic "slice bounds out of range [:1] with length 0" ∧
    policy "CRUD" ⟨some "readcollections", none, none, none, none⟩ = .err "invalid action" ∧
    policy "CRUD" ⟨some "read_foo", none, none, none, none⟩ = .ok ("", "R", "foo") := by
  decide

/-! ## The resource path and the verb of an encoded permission -/

theorem toUpper_eq_M (c : Char) : c.toUpper = 'M' ↔ c = 'm' ∨ c = 'M' := by
  constructor
  · intro h
    unfold Char.toUpper at h
    simp only at h
    by_cases hr : c.toNat ≥ 97 ∧ c.toNat ≤ 122
    · rw [if_pos hr] at h
      left
      have hc : c = Char.ofNat c.toNat := (Char.ofNat_toNat c).symm
      obtain ⟨h1, h2⟩ := hr
      rw [hc]
      generalize c.toNat = n at h h1 h2
      interval_cases n <;> first | rfl | (exact absurd h (by decide))
    · rw [if_neg hr] at h
      right; exact h
  · rintro (rfl | rfl) <;> rfl

/-- C6: all-or-nothing wildcard defaulting.  For an Action `w_tenants` (`w` a non-empty verb
word without `_`), `policy` returns the path `Shards(Collection, Tenant)` when both fields
are set and `Shards(*, *)` when either is unset, whatever the other field holds; for an
Action `w_d` with `d` among `objects_collection` and `objects_tenants` it returns
`Objects(Collection, Tenant, Object)` when all three are set and `Objects(*, *, *)` when
any one is unset. -/
theorem wildcard_defaulting (CRUD w d : String) (col ten obj role : Option String)
    (hne : w ≠ "") (hw : '_' ∉ w.data)
    (hd : d ∈ ["objects_collection", "objects_tenants"]) :
    (∀ c t, col = some c → ten = some t →
      ∃ verb, policy CRUD ⟨some (w ++ "_" ++ "tenants"), col, ten, obj, role⟩
        = .ok (elem0 (Shards c t), verb, "tenants")) ∧
    ((col = none ∨ ten = none) →
      ∃ verb, policy CRUD ⟨some (w ++ "_" ++ "tenants"), col, ten, obj, role⟩
        = .ok (elem0 (Shards "*" "*"), verb, "tenants")) ∧
    (∀ c t o, col = some c → ten = some t → obj = some o →
      ∃ verb, policy CRUD ⟨some (w ++ "_" ++ d), col, ten, obj, role⟩
        = .ok (Objects c t o, verb, d)) ∧
    ((col = none ∨ ten = none ∨ obj = none) →
      ∃ verb, policy CRUD ⟨some (w ++ "_" ++ d), col, ten, obj, role⟩
        = .ok (Objects "*" "*" "*", verb, d)) := by
  obtain ⟨u, hu⟩ := upperFirstByte_ok w hne
  simp only [List.mem_cons, List.mem_singleton, List.not_mem_nil, or_false] at hd
  refine ⟨?_, ?_, ?_, ?_⟩
  · rintro c t rfl rfl
    refine ⟨if u = "M" then CRUD else u, ?_⟩
    rw [policy_of_word CRUD w "tenants" u _ _ _ _ hw hu]
    simp [policyResource, rolesD, cluster, collections, tenants, index, elem0, Shards,
      Outcome.bind]
  · intro h
    refine ⟨if u = "M" then CRUD else u, ?_⟩
    rw [policy_of_word CRUD w "tenants" u _ _ _ _ hw hu]
    rcases h with rfl | rfl
    · simp [policyResource, rolesD, cluster, collections, tenants, index, elem0, Shards,
        Outcome.bind]
    · cases col <;>
        simp [policyResource, rolesD, cluster, collections, tenants, index, elem0, Shards,
          Outcome.bind]
  · rintro c t o rfl rfl rfl
    refine ⟨if u = "M" then CRUD else u, ?_⟩
    rw [policy_of_word CRUD w d u _ _ _ _ hw hu]
    rcases hd with rfl | rfl <;>
      simp [policyResource, rolesD, cluster, collections, tenants, objectsCollection,
        objectsTenants, Outcome.bind]
  · intro h
    refine ⟨if u = "M" then CRUD else u, ?_⟩
    rw [policy_of_word CRUD w d u _ _ _ _ hw hu]
    rcases hd with rfl | rfl <;> cases col <;> cases ten <;> cases obj <;>
      first
        | (simp at h; done)
        | simp [policyResource, rolesD, cluster, collections, tenants, objectsCollection,
            objectsTenants, Outcome.bind]

/-- C6, at the Action `read_tenants` with Collection unset and Tenant `t1`: the path is
`Shards(*, *)`. -/
theorem wildcard_defaulting_witness :
    ∃ verb, policy "CRUD" ⟨some ("read" ++ "_" ++ "tenants"), none, some "t1", none, none⟩
      = .ok (elem0 (Shards "*" "*"), verb, "tenants") :=
  (wildcard_defaulting "CRUD" "read" "objects_tenants" none (some "t1") none none
    (by decide) (by decide) (by decide)).2.1 (Or.inl rfl)

/-- C7 (as stated, refuted): the Action `écrire_collections` has the non-empty verb word
`écrire` without `_`, whose first letter `é` has the uppercase `É`; `policy` slices off the
first byte of the word, which is not a character by itself, and returns the verb U+FFFD,
which is neither `É` nor `é`.  The domain is derived as stated. -/
theorem non_ascii_first_letter_verb :
    policy "CRUD" ⟨some ("écrire" ++ "_" ++ "collections"), none, none, none, none⟩
      = .ok ("collections/*", String.singleton (Char.ofNat 0xFFFD), "collections") ∧
    String.singleton (Char.ofNat 0xFFFD) ≠ "É" ∧
    String.singleton (Char.ofNat 0xFFFD) ≠ "é" ∧
    String.singleton (Char.ofNat 0xFFFD) ≠ String.singleton ('é').toUpper := by
  decide

/-- C7 (amended): for every Action `w_d` whose verb word `w` has no `_` and starts with an
ASCII character `c`, `policy` returns the domain `d`, everything after the first `_`, and
the verb that is the uppercase of `c`, except that `m` and `M` give the aggregate CRUD
verb. -/
theorem verb_domain_derivation (CRUD w d : String) (c : Char) (rest : List Char)
    (col ten obj role : Option String)
    (hdata : w.data = c :: rest) (hascii : c.val < 128) (hw : '_' ∉ w.data) :
    ∃ resource, policy CRUD ⟨some (w ++ "_" ++ d), col, ten, obj, role⟩
      = .ok (resource, if c = 'm' ∨ c = 'M' then CRUD else String.singleton c.toUpper, d) := by
  have hu : upperFirstByte w = .ok (String.singleton c.toUpper) := by
    simp [upperFirstByte, hdata, hascii]
  obtain ⟨r, hr⟩ := policyResource_ok ⟨some (w ++ "_" ++ d), col, ten, obj, role⟩ d
  refine ⟨r, ?_⟩
  rw [policy_of_word CRUD w d _ _ _ _ _ hw hu, hr, Outcome.ok_bind]
  have hM : String.singleton c.toUpper = "M" ↔ (c = 'm' ∨ c = 'M') := by
    rw [← toUpper_eq_M]
    constructor
    · intro h
      have := congrArg String.data h
      simpa [String.singleton] using this
    · intro h
      rw [h]
      rfl
  by_cases h : c = 'm' ∨ c = 'M'
  · rw [if_pos h, if_pos (hM.mpr h)]
  · rw [if_neg h, if_neg (fun h2 => h (hM.mp h2))]

/-- C7 (amended), at `create_collections` (verb `C`), `manage_collections` (the aggregate
verb), `read_cluster` (verb `R`, domain `cluster`) and `delete_objects_tenants` (domain
`objects_tenants`). -/
theorem verb_domain_derivation_witness :
    (∃ resource, policy "CRUD" ⟨some ("create" ++ "_" ++ "collections"), none, none, none, none⟩
      = .ok (resource, if 'c' = 'm' ∨ 'c' = 'M' then "CRUD" else String.singleton ('c').toUpper,
          "collections")) ∧
    (∃ resource, policy "CRUD" ⟨some ("manage" ++ "_" ++ "collections"), none, none, none, none⟩
      = .ok (resource, if 'm' = 'm' ∨ 'm' = 'M' then "CRUD" else String.singleton ('m').toUpper,
          "collections")) ∧
    (∃ resource, policy "CRUD" ⟨some ("read" ++ "_" ++ "cluster"), none, none, none, none⟩
      = .ok (resource, if 'r' = 'm' ∨ 'r' = 'M' then "CRUD" else String.singleton ('r').toUpper,
          "cluster")) ∧
    (∃ resource, policy "CRUD" ⟨some ("delete" ++ "_" ++ "objects_tenants"), none, none, none, none⟩
      = .ok (resource, if 'd' = 'm' ∨ 'd' = 'M' then "CRUD" else String.singleton ('d').toUpper,
          "objects_tenants")) :=
  ⟨verb_domain_derivation "CRUD" "create" "collections" 'c' ['r', 'e', 'a', 't', 'e']
      none none none none rfl (by decide) (by decide),
   verb_domain_derivation "CRUD" "manage" "collections" 'm' ['a', 'n', 'a', 'g', 'e']
      none none none none rfl (by decide) (by decide),
   verb_domain_derivation "CRUD" "read" "cluster" 'r' ['e', 'a', 'd']
      none none none none rfl (by decide) (by decide),
   verb_domain_derivation "CRUD" "delete" "objects_tenants" 'd' ['e', 'l', 'e', 't', 'e']
      none none none none rfl (by decide) (by decide)⟩

/-- The verbs of the three Actions that the specification names: `C`, the aggregate verb
and `R`. -/
theorem verb_derivation_examples (CRUD : String) :
    policy CRUD ⟨some "create_collections", none, none, none, none⟩
      = .ok ("collections/*", "C", "collections") ∧
    policy CRUD ⟨some "manage_collections", none, none, none, none⟩
      = .ok ("collections/*", CRUD, "collections") ∧
    policy CRUD ⟨some "read_cluster", none, none, none, none⟩ = .ok ("cluster", "R", "cluster") :=
  ⟨rfl, rfl, rfl⟩

/-! ## Verbs that the verb-word table does not hold -/

/-- A verb outside the verb-word table is looked up as the empty word: on a collections
tuple `permission` returns a permission whose Action is `_collections`. -/
theorem permission_of_unknown_verb (CRUD s c v : String) (hv : Actions CRUD v = none)
    (hc : '/' ∉ c.data) :
    permission CRUD [s, "collections/" ++ c, v, "collections"]
      = .ok ⟨some "_collections", some c, none, none, none⟩ := by
  rw [permission_tuple]
  have h : ReplaceAllUnderscoreStar (sprintfUnderscore "" "collections") = "_collections" := by
    decide
  simp [lookupOrZero, hv, h, Split_collections c hc, collections, index, Outcome.bind]

/-- C8 (the code at the failing input): the verb `X` is not a key of the verb-word table,
yet `permission` does not fail on the tuple `[p, collections/Article, X, collections]`: it
takes the empty string for the verb word and returns a permission whose Action is
`_collections`, an Action on which `policy` panics. -/
theorem permission_unknown_verb_substitutes_empty_word :
    Actions "CRUD" "X" = none ∧
    permission "CRUD" ["p", "collections/Article", "X", "collections"]
      = .ok ⟨some "_collections", some "Article", none, none, none⟩ ∧
    policy "CRUD" ⟨some "_collections", some "Article", none, none, none⟩
      = .panic "slice bounds out of range [:1] with length 0" := by
  decide

/-! ## The roles domain -/

/-- C9 (as stated, refuted): encoding the permission with Action `read_roles` and Role
`admin` gives the path `roles/*`, in which the role name does not occur, and decoding the
tuple gives the Role `*`, not `admin`. -/
theorem roles_path_drops_role_name :
    policy "CRUD" ⟨some "read_roles", none, none, none, some "admin"⟩
      = .ok ("roles/*", "R", "roles") ∧
    permission "CRUD" ["p", "roles/*", "R", "roles"]
      = .ok ⟨some "read_roles", none, none, none, some "*"⟩ ∧
    (⟨some "read_roles", none, none, none, some "*"⟩ : Permission).Role ≠ some "admin" := by
  decide

/-- C9 (amended): for every role name `r` and every verb word `w` among create, read,
update, delete, manage (with its verb `v`), encoding the permission with Action `w_roles`
and Role `r` gives `(roles/*, v, roles)` whatever `r` is, and decoding the tuple
`[s, roles/*, v, roles]` gives the Action `w_roles` and the Role `*`, with Collection,
Tenant and Object unset; so the Action is reproduced, and the Role only when it is `*`.
The aggregate constant is taken to differ from the four one-letter verbs, as the keys of
the verb-word table must. -/
theorem roles_encode_decode (CRUD s r w v : String) (hK : CRUD ∉ ["C", "R", "U", "D"])
    (hwv : (w, v) ∈ wordVerbs CRUD) :
    policy CRUD ⟨some (w ++ "_" ++ "roles"), none, none, none, some r⟩
      = .ok ("roles/*", v, "roles") ∧
    permission CRUD [s, "roles/*", v, "roles"]
      = .ok ⟨some (w ++ "_" ++ "roles"), none, none, none, some "*"⟩ := by
  obtain ⟨hus, _, ⟨u, hu, huv⟩, hrep⟩ := word_facts CRUD w v hwv
  have hw := Actions_of_word CRUD w v hK hwv
  have hact := hrep "roles" (by decide)
  have hsplit : Split "roles/*" '/' = ["roles", "*"] := by decide
  constructor
  · rw [policy_of_word CRUD w "roles" u _ _ _ _ hus hu, huv]
    simp [policyResource, rolesD, Roles, index, Outcome.bind]
  · rw [permission_tuple]
    simp [hw, hact, hsplit, collections, tenants, objectsTenants, objectsCollection, rolesD,
      index, Outcome.bind]

/-- C9 (amended), at the Action `read_roles` and the Role `admin`. -/
theorem roles_encode_decode_witness :
    policy "CRUD" ⟨some ("read" ++ "_" ++ "roles"), none, none, none, some "admin"⟩
      = .ok ("roles/*", "R", "roles") ∧
    permission "CRUD" ["p", "roles/*", "R", "roles"]
      = .ok ⟨some ("read" ++ "_" ++ "roles"), none, none, none, some "*"⟩ :=
  roles_encode_decode "CRUD" "p" "admin" "read" "R" (by decide) (by decide)

/-! ## The built-in roles -/

/-- C10: in the table of built-in roles, `viewer` yields the Read verb, `editor` the
Create+Read+Update aggregate and `admin` the full Create+Read+Update+Delete aggregate, and
every other name is not found. -/
theorem builtInRoles_table (READ CRU CRUD name : String)
    (hname : name ∉ ["viewer", "editor", "admin"]) :
    builtInRoles READ CRU CRUD "viewer" = some READ ∧
    builtInRoles READ CRU CRUD "editor" = some CRU ∧
    builtInRoles READ CRU CRUD "admin" = some CRUD ∧
    builtInRoles READ CRU CRUD name = none := by
  simp only [List.mem_cons, List.mem_singleton, List.not_mem_nil, or_false, not_or] at hname
  obtain ⟨h1, h2, h3⟩ := hname
  refine ⟨rfl, rfl, rfl, ?_⟩
  simp [builtInRoles, h1, h2, h3]

/-- C10, at the name `unknown`. -/
theorem builtInRoles_table_witness :
    builtInRoles "R" "CRU" "CRUD" "viewer" = some "R" ∧
    builtInRoles "R" "CRU" "CRUD" "editor" = some "CRU" ∧
    builtInRoles "R" "CRU" "CRUD" "admin" = some "CRUD" ∧
    builtInRoles "R" "CRU" "CRUD" "unknown" = none :=
  builtInRoles_table "R" "CRU" "CRUD" "unknown" (by decide)

/-! ## The Action of a decoded tuple -/

theorem removeUnderscoreStar_of_no_occurrence (l : List Char) (h : ¬ ['_', '*'] <:+: l) :
    removeUnderscoreStar l = l := by
  induction l using removeUnderscoreStar.induct with
  | case1 => rfl
  | case2 c => rfl
  | case3 c d rest hcd ih =>
    exact absurd (by rw [hcd.1, hcd.2]; exact (List.prefix_append ['_', '*'] rest).isInfix) h
  | case4 c d rest hcd ih =>
    have htail : ¬ ['_', '*'] <:+: d :: rest := fun hi => h (List.infix_cons hi)
    simp [removeUnderscoreStar, hcd, ih htail]

theorem removeUnderscoreStar_append (a rest : List Char) (h : ¬ ['_', '*'] <:+: a) :
    removeUnderscoreStar (a ++ '_' :: '*' :: rest) = a ++ removeUnderscoreStar rest := by
  induction a with
  | nil => simp [removeUnderscoreStar]
  | cons c a ih =>
    have htail : ¬ ['_', '*'] <:+: a := fun hi => h (List.infix_cons hi)
    cases a with
    | nil =>
      simp [removeUnderscoreStar]
    | cons d a2 =>
      have hcd : ¬ (c = '_' ∧ d = '*') := fun hc =>
        h (by rw [hc.1, hc.2]; exact (List.prefix_append ['_', '*'] a2).isInfix)
      have ih2 := ih htail
      simp only [List.cons_append] at ih2 ⊢
      simp [removeUnderscoreStar, hcd, ih2]

theorem index_ok_of_lt {α : Type} (xs : List α) (i : Nat) (h : i < xs.length) :
    ∃ x, index xs i = .ok x := by
  rcases index_ok_or_panic xs i with hx | hx
  · exact hx
  · have hnone : xs.get? i ≠ none := fun hn => by
      have := List.get?_eq_none.mp hn
      omega
    unfold index at hx
    cases hget : xs.get? i with
    | none => exact absurd hget hnone
    | some x => rw [hget] at hx; exact absurd hx (by simp)

/-- Whenever `permission` returns a permission, its Action is the joined verb word and
domain with every `_*` removed. -/
theorem permission_action (CRUD s path v d : String) (p : Permission)
    (h : permission CRUD [s, path, v, d] = .ok p) :
    p.Action = some (ReplaceAllUnderscoreStar
      (sprintfUnderscore (lookupOrZero (Actions CRUD) v) d)) := by
  rw [permission_tuple] at h
  simp only at h
  rcases index_ok_or_panic (Split path '/') 1 with ⟨x1, h1⟩ | h1 <;>
    rcases index_ok_or_panic (Split path '/') 3 with ⟨x3, h3⟩ | h3 <;>
      rcases index_ok_or_panic (Split path '/') 5 with ⟨x5, h5⟩ | h5 <;>
        split_ifs at h <;>
          simp [h1, h3, h5, Outcome.bind] at h <;>
            (subst h; rfl)

/-- A tuple whose path has the segments that its domain reads makes `permission` return a
permission. -/
theorem permission_returns (CRUD s path v d : String)
    (hlen : segmentsRead d ≤ (Split path '/').length) :
    ∃ p, permission CRUD [s, path, v, d] = .ok p := by
  rw [permission_tuple]
  unfold segmentsRead at hlen
  simp only
  split_ifs at hlen ⊢
  · obtain ⟨x1, h1⟩ := index_ok_of_lt (Split path '/') 1 (by omega)
    exact ⟨_, by rw [h1]; rfl⟩
  · obtain ⟨x1, h1⟩ := index_ok_of_lt (Split path '/') 1 (by omega)
    obtain ⟨x3, h3⟩ := index_ok_of_lt (Split path '/') 3 (by omega)
    exact ⟨_, by rw [h1, h3]; rfl⟩
  · obtain ⟨x1, h1⟩ := index_ok_of_lt (Split path '/') 1 (by omega)
    obtain ⟨x3, h3⟩ := index_ok_of_lt (Split path '/') 3 (by omega)
    obtain ⟨x5, h5⟩ := index_ok_of_lt (Split path '/') 5 (by omega)
    exact ⟨_, by rw [h1, h3, h5]; rfl⟩
  · obtain ⟨x1, h1⟩ := index_ok_of_lt (Split path '/') 1 (by omega)
    exact ⟨_, by rw [h1]; rfl⟩
  · exact ⟨_, rfl⟩
  · exact ⟨_, rfl⟩

theorem Actions_word (CRUD v w : String) (h : Actions CRUD v = some w) :
    w ∈ ["create", "read", "update", "delete", "manage"] := by
  unfold Actions at h
  split_ifs at h <;> simp at h <;> subst h <;> simp

/-- C11 (as stated, refuted): the verb `R` has the verb word `read`, and with the domain
`a_*b` the joined string `read_a_*b` does not end in `_*`, so that stripping the suffix
leaves it as it is; the Action that `permission` returns is `read_ab`, the `_*` inside the
domain removed. -/
theorem inner_wildcard_is_removed :
    Actions "CRUD" "R" = some "read" ∧
    permission "CRUD" ["p", "x", "R", "a_*b"] = .ok ⟨some "read_ab", none, none, none, none⟩ ∧
    stripTrailingUnderscoreStar ("read" ++ "_" ++ "a_*b") = "read_a_*b" ∧
    (some "read_ab" : Option String)
      ≠ some (stripTrailingUnderscoreStar ("read" ++ "_" ++ "a_*b")) := by
  decide

/-- C11 (amended): for every policy tuple `[s, path, v, d]` whose verb `v` has the verb word
`w` in the reverse table and whose path has the segments that the domain `d` reads,
`permission` returns a permission whose Action is the string `w_d` with every occurrence of
`_*` removed, scanning from the left: the domain `*` gives exactly `w`; a `w_d` in which
`_*` does not occur gives exactly `w_d`; and a `_*` inside `d`, as in `d = a_*b`, is removed
as well, giving `w_a` followed by `b` with its occurrences removed. -/
theorem action_reconstruction (CRUD s path v d w : String)
    (hw : Actions CRUD v = some w)
    (hlen : segmentsRead d ≤ (Split path '/').length) :
    ∃ p, permission CRUD [s, path, v, d] = .ok p ∧
      p.Action = some (ReplaceAllUnderscoreStar (w ++ "_" ++ d)) ∧
      (d = "*" → p.Action = some w) ∧
      (¬ ['_', '*'] <:+: (w ++ "_" ++ d).data → p.Action = some (w ++ "_" ++ d)) ∧
      (∀ a b : String, d = a ++ "_*" ++ b → ¬ ['_', '*'] <:+: (w ++ "_" ++ a).data →
        p.Action = some (w ++ "_" ++ a ++ ReplaceAllUnderscoreStar b)) := by
  obtain ⟨p, hp⟩ := permission_returns CRUD s path v d hlen
  have hact : p.Action = some (ReplaceAllUnderscoreStar (w ++ "_" ++ d)) := by
    have := permission_action CRUD s path v d p hp
    simpa [lookupOrZero, hw, sprintfUnderscore] using this
  refine ⟨p, hp, hact, ?_, ?_, ?_⟩
  · rintro rfl
    rw [hact]
    have hmem := Actions_word CRUD v w hw
    simp only [List.mem_cons, List.mem_singleton, List.not_mem_nil, or_false] at hmem
    rcases hmem with rfl | rfl | rfl | rfl | rfl <;> decide
  · intro hno
    rw [hact]
    unfold ReplaceAllUnderscoreStar
    rw [removeUnderscoreStar_of_no_occurrence _ hno]
  · rintro a b rfl hno
    rw [hact]
    have hdata : (w ++ "_" ++ (a ++ "_*" ++ b)).data
        = (w ++ "_" ++ a).data ++ '_' :: '*' :: b.data := by
      simp [String.data_append]
    unfold ReplaceAllUnderscoreStar
    rw [hdata, removeUnderscoreStar_append _ _ hno]
    congr 1

/-- C11 (amended), at the tuple `[p, x, R, a_*b]`, whose verb word is `read`. -/
theorem action_reconstruction_witness :
    ∃ p, permission "CRUD" ["p", "x", "R", "a_*b"] = .ok p ∧
      p.Action = some (ReplaceAllUnderscoreStar ("read" ++ "_" ++ "a_*b")) ∧
      ("a_*b" = "*" → p.Action = some "read") ∧
      (¬ ['_', '*'] <:+: ("read" ++ "_" ++ "a_*b").data →
        p.Action = some ("read" ++ "_" ++ "a_*b")) ∧
      (∀ a b : String, "a_*b" = a ++ "_*" ++ b → ¬ ['_', '*'] <:+: ("read" ++ "_" ++ a).data →
        p.Action = some ("read" ++ "_" ++ a ++ ReplaceAllUnderscoreStar b)) :=
  action_reconstruction "CRUD" "p" "x" "R" "a_*b" "read" (by decide) (by decide)

/-- The Actions of the wildcard domain and of a listed domain: `manage_*` becomes `manage`,
and `read_collections` is kept. -/
theorem action_reconstruction_examples :
    permission "CRUD" ["p", "*", "CRUD", "*"]
      = .ok ⟨some "manage", some "*", some "*", some "*", some "*"⟩ ∧
    permission "CRUD" ["p", "collections/Article", "R", "collections"]
      = .ok ⟨some "read_collections", some "Article", none, none, none⟩ := by
  decide

end Rbac
